import Mathlib

/-!
# Verification of the ConfidentialCreditApproval voting core

Shallow embedding of the two Solidity contracts of this repository:

* `src/contracts/DAOPrivacyVotingFHE.sol` — contract `DAOPrivacyVotingFHE`,
  embedded in namespace `DAO` below.
* `src/unnamed/part_001` — contract `FHE_Governance_Voting`,
  embedded in namespace `Gov` below.

Machine integers (`uint256`, `uint64`, `uint8`, `bytes32`, `address`) are
modelled as `Nat`; `bytes` as `List Nat` (byte values); Solidity mappings as
total functions with the zero value as default (Solidity mapping semantics).
A reverting `require` is modelled by `Except.error` carrying the revert
string; executing an operation on the chain applies the new state on success
and leaves the state unchanged on revert (`execOp`).

fhEVM ciphertext handles (`euint64`) are opaque `bytes32` words on chain; the
in-file TFHE stubs of the source wrap plain values, so a ciphertext is
modelled as the `Nat` it wraps (`TFHE.encrypt64 v` wraps `v`).
-/

/-- Point update of a total map, used to model Solidity mapping writes. -/
def upd {α β : Type} [DecidableEq α] (f : α → β) (a : α) (b : β) : α → β :=
  fun x => if x = a then b else f x

@[simp] theorem upd_same {α β : Type} [DecidableEq α] (f : α → β) (a : α) (b : β) :
    upd f a b a = b := by
  simp [upd]

theorem upd_ne {α β : Type} [DecidableEq α] (f : α → β) (a : α) (b : β) {x : α}
    (h : x ≠ a) : upd f a b x = f x := by
  simp [upd, h]

theorem upd_apply {α β : Type} [DecidableEq α] (f : α → β) (a : α) (b : β) (x : α) :
    upd f a b x = if x = a then b else f x := rfl

namespace DAO

/-- Embeds `enum VoteType` of `DAOPrivacyVotingFHE.sol` (values 0..4). -/
inductive VoteType where
  | SingleChoice
  | MultiChoice
  | RankedChoice
  | QuadraticToken
  | TokenWeighted
  deriving DecidableEq, Repr

/-- Embeds `enum Disclosure` of `DAOPrivacyVotingFHE.sol`. -/
inductive Disclosure where
  | Minimal
  | AggregateOnly
  deriving DecidableEq, Repr

/-- Embeds `struct ProposalMeta` of `DAOPrivacyVotingFHE.sol` (lines 97-111).
Timestamps are `uint64` values, `optionCount` a `uint8`, `eligibilityMerkle`
a `bytes32` word; all modelled as `Nat`.  The Solidity field `exists` is a
reserved-looking name in Lean, hence `exists_`. -/
structure ProposalMeta where
  title : String
  description : String
  startTs : Nat
  endTs : Nat
  bufferTs : Nat
  voteType : VoteType
  disclosure : Disclosure
  optionCount : Nat
  snapshotBlock : Nat
  eligibilityMerkle : Nat
  enableOverwrite : Bool
  enableDelegation : Bool
  exists_ : Bool
  deriving DecidableEq, Repr

/-- The zero value of `ProposalMeta`: what an unset mapping slot holds. -/
def ProposalMeta.zero : ProposalMeta :=
  { title := "", description := "", startTs := 0, endTs := 0, bufferTs := 0,
    voteType := .SingleChoice, disclosure := .Minimal, optionCount := 0,
    snapshotBlock := 0, eligibilityMerkle := 0, enableOverwrite := false,
    enableDelegation := false, exists_ := false }

/-- Embeds `struct EncryptedTally` (lines 114-118): a vector of `euint64`
ciphertext handles plus an init flag. -/
structure EncryptedTally where
  counts : List Nat
  initialized : Bool
  deriving DecidableEq, Repr

def EncryptedTally.zero : EncryptedTally := { counts := [], initialized := false }

/-- Embeds `struct EncryptedBallot` (lines 121-127). -/
structure EncryptedBallot where
  voter : Nat
  eligibilityNullifier : Nat
  cipher : List Nat
  timestamp : Nat
  valid : Bool
  deriving DecidableEq, Repr

def EncryptedBallot.zero : EncryptedBallot :=
  { voter := 0, eligibilityNullifier := 0, cipher := [], timestamp := 0, valid := false }

/-- Embeds `struct Delegation` (lines 129-132). -/
structure Delegation where
  to_ : Nat
  ts : Nat
  deriving DecidableEq, Repr

def Delegation.zero : Delegation := { to_ := 0, ts := 0 }

/-- Contract storage of `DAOPrivacyVotingFHE` (lines 134-157).

`ballots` is declared at line 144 as a single-level mapping but every access
in the contract (lines 242-254, 327-334) and its own comment
(`proposalId => voter => ballot`) use it as a two-level
`proposalId => voter => EncryptedBallot` map; it is embedded as the
two-level map those accesses define.  The same holds for `delegations`
(declared line 147, accessed line 262). -/
structure State where
  proposals : Nat → ProposalMeta
  tallies : Nat → EncryptedTally
  ballots : Nat → Nat → EncryptedBallot
  delegations : Nat → Nat → Delegation
  usedNullifier : Nat → Nat → Bool
  proposalNonce : Nat
  owner : Nat
  timelock : Nat

/-- Constructor (lines 184-186): the deployer becomes `owner`; every
mapping starts at its zero value. -/
def initState (deployer : Nat) : State :=
  { proposals := fun _ => ProposalMeta.zero,
    tallies := fun _ => EncryptedTally.zero,
    ballots := fun _ _ => EncryptedBallot.zero,
    delegations := fun _ _ => Delegation.zero,
    usedNullifier := fun _ _ => false,
    proposalNonce := 0, owner := deployer, timelock := 0 }

/-- Embeds `TFHE.encrypt64` stub (line 45): wraps the plain value. -/
def TFHE.encrypt64 (v : Nat) : Nat := v

/-- Embeds `createProposal` (lines 194-211).  Guards: `onlyOwner`,
`optionCount > 1 && optionCount <= 16`, `endTs > startTs`,
`bufferTs <= 3 days` (259200 seconds).  On success the fresh id is
`proposalNonce + 1` (`pid = ++proposalNonce`), the metadata is stored with
`exists = true`, and the tally is initialized to `optionCount` encrypted
zeros. -/
def runCreateProposal (s : State) (sender : Nat) (meta : ProposalMeta) :
    Except String State :=
  if sender ≠ s.owner then .error "not owner"
  else if ¬ (1 < meta.optionCount ∧ meta.optionCount ≤ 16) then .error "options/out-of-range"
  else if ¬ (meta.startTs < meta.endTs) then .error "time/invalid"
  else if ¬ (meta.bufferTs ≤ 259200) then .error "buffer/too-long"
  else
    let pid := s.proposalNonce + 1
    .ok { s with
      proposalNonce := pid,
      proposals := upd s.proposals pid { meta with exists_ := true },
      tallies := upd s.tallies pid
        { counts := List.replicate meta.optionCount (TFHE.encrypt64 0),
          initialized := true } }

/-- The `proposalActive` modifier (lines 171-176): proposal exists and
`startTs <= now <= endTs`. -/
def checkActive (s : State) (now pid : Nat) : Option String :=
  if (s.proposals pid).exists_ = false then some "proposal/invalid"
  else if now < (s.proposals pid).startTs then some "proposal/not-started"
  else if (s.proposals pid).endTs < now then some "proposal/ended"
  else none

/-- Embeds `submitBallot` (lines 225-255).  After the `proposalActive` modifier:
if the nullifier was already used, `enableOverwrite` is required
(`"overwrite/disabled"`); then `usedNullifier[pid][n]` is set, the previous
ballot of the sender (if valid) is first marked invalid (line 243) and then
the whole slot `ballots[pid][sender]` is overwritten with the new record
(lines 246-252) — the net storage effect is the replacement written here. -/
def runSubmitBallot (s : State) (sender now pid n : Nat) (cipher : List Nat) :
    Except String State :=
  match checkActive s now pid with
  | some e => .error e
  | none =>
    if s.usedNullifier pid n = true ∧ (s.proposals pid).enableOverwrite = false then
      .error "overwrite/disabled"
    else
      .ok { s with
        usedNullifier := upd s.usedNullifier pid (upd (s.usedNullifier pid) n true),
        ballots := upd s.ballots pid (upd (s.ballots pid) sender
          { voter := sender, eligibilityNullifier := n, cipher := cipher,
            timestamp := now, valid := true }) }

/-- Embeds `setDelegation` (lines 260-264). -/
def runSetDelegation (s : State) (sender now pid to_ : Nat) : Except String State :=
  match checkActive s now pid with
  | some e => .error e
  | none =>
    if to_ = sender then .error "delegate/self"
    else .ok { s with
      delegations := upd s.delegations pid (upd (s.delegations pid) sender
        { to_ := to_, ts := now }) }

/-- Embeds `accumulateEncryptedVector` (lines 279-293).  After `proposalActive`,
requires `T.initialized && encVector.length == T.counts.length`
(`"vector/size"`).  The loop body (line 291) stores
`T.counts[i] = encVector[i]` — a plain replacement, with the addition
`add64(T.counts[i], encVector[i])` left as a comment. -/
def runAccumulateEncryptedVector (s : State) (now pid : Nat) (encVector : List Nat) :
    Except String State :=
  match checkActive s now pid with
  | some e => .error e
  | none =>
    if ¬ ((s.tallies pid).initialized = true ∧
          encVector.length = (s.tallies pid).counts.length) then
      .error "vector/size"
    else
      .ok { s with
        tallies := upd s.tallies pid
          { counts := encVector, initialized := (s.tallies pid).initialized } }

/-- The `proposalEnded` modifier (lines 178-182): exists and `now > endTs`. -/
def checkEnded (s : State) (now pid : Nat) : Option String :=
  if (s.proposals pid).exists_ = false then some "proposal/invalid"
  else if ¬ ((s.proposals pid).endTs < now) then some "proposal/not-ended"
  else none

/-- Embeds `finalize` (lines 300-315).  After `proposalEnded`, requires
`now > endTs + bufferTs` (`"buffer/pending"`).  The body only emits events
(`Tallied`, `Finalized`, optionally `ExecutionTriggered`): no storage is
written, no result is recorded, and nothing prevents calling it again. -/
def runFinalize (s : State) (now pid : Nat) : Except String State :=
  match checkEnded s now pid with
  | some e => .error e
  | none =>
    if ¬ ((s.proposals pid).endTs + (s.proposals pid).bufferTs < now) then
      .error "buffer/pending"
    else
      .ok s

/-- Embeds `setAllowlistRoot` (lines 350-353): `onlyOwner`, proposal must exist;
only rewrites `eligibilityMerkle`. -/
def runSetAllowlistRoot (s : State) (sender pid root : Nat) : Except String State :=
  if sender ≠ s.owner then .error "not owner"
  else if (s.proposals pid).exists_ = false then .error "proposal/invalid"
  else .ok { s with
    proposals := upd s.proposals pid { s.proposals pid with eligibilityMerkle := root } }

/-- Embeds `setTimelock` (lines 189-192): `onlyOwner`. -/
def runSetTimelock (s : State) (sender tl : Nat) : Except String State :=
  if sender ≠ s.owner then .error "not owner"
  else .ok { s with timelock := tl }

/-- One external call to `DAOPrivacyVotingFHE`, with its sender and the
block timestamp at which it executes. -/
inductive Op where
  | create (sender : Nat) (meta : ProposalMeta)
  | submit (sender now pid n : Nat) (cipher : List Nat)
  | delegate (sender now pid to_ : Nat)
  | accumulate (now pid : Nat) (encVector : List Nat)
  | finalize (now pid : Nat)
  | allowlistRoot (sender pid root : Nat)
  | timelock (sender tl : Nat)
  deriving Repr

/-- Run one call. -/
def runOp (s : State) : Op → Except String State
  | .create sender meta => runCreateProposal s sender meta
  | .submit sender now pid n cipher => runSubmitBallot s sender now pid n cipher
  | .delegate sender now pid to_ => runSetDelegation s sender now pid to_
  | .accumulate now pid encVector => runAccumulateEncryptedVector s now pid encVector
  | .finalize now pid => runFinalize s now pid
  | .allowlistRoot sender pid root => runSetAllowlistRoot s sender pid root
  | .timelock sender tl => runSetTimelock s sender tl

/-- EVM transaction semantics: a reverted call leaves storage unchanged. -/
def execOp (s : State) (op : Op) : State :=
  match runOp s op with
  | .ok s' => s'
  | .error _ => s

/-- A sequence of calls, applied in ledger order. -/
def execTrace (s : State) (ops : List Op) : State := ops.foldl execOp s

end DAO

namespace Gov

/-- Embeds `enum WeightModel` of `FHE_Governance_Voting` (part_001, lines 82-86). -/
inductive WeightModel where
  | OneShareOneVote
  | TokenWeighted
  | Quadratic
  deriving DecidableEq, Repr

/-- Embeds `enum ProposalStatus` (part_001, lines 88-92).  `Active` is value 0,
hence the zero value of an unset mapping slot. -/
inductive ProposalStatus where
  | Active
  | Finalized
  | Cancelled
  deriving DecidableEq, Repr

/-- Embeds `struct Proposal` (part_001, lines 94-106). -/
structure Proposal where
  id : String
  title : String
  description : String
  createdAt : Nat
  deadline : Nat
  createdBy : Nat
  model : WeightModel
  optFor : Bool
  optAgainst : Bool
  optAbstain : Bool
  status : ProposalStatus
  deriving DecidableEq, Repr

def Proposal.zero : Proposal :=
  { id := "", title := "", description := "", createdAt := 0, deadline := 0,
    createdBy := 0, model := .OneShareOneVote, optFor := false,
    optAgainst := false, optAbstain := false, status := .Active }

/-- Embeds `struct EncryptedBallot` (part_001, lines 108-116). -/
structure EncryptedBallot where
  ciphertext : List Nat
  nullifier : Nat
  submittedAt : Nat
  deriving DecidableEq, Repr

def EncryptedBallot.zero : EncryptedBallot :=
  { ciphertext := [], nullifier := 0, submittedAt := 0 }

/-- Embeds `struct AggregatedResult` (part_001, lines 118-127). -/
structure AggregatedResult where
  totalFor : Nat
  totalAgainst : Nat
  totalAbstain : Nat
  totalWeight : Nat
  proof : List Nat
  finalizedAt : Nat
  deriving DecidableEq, Repr

def AggregatedResult.zero : AggregatedResult :=
  { totalFor := 0, totalAgainst := 0, totalAbstain := 0, totalWeight := 0,
    proof := [], finalizedAt := 0 }

/-- Embeds `_sqrt` (part_001, lines 395-404), the Babylonian integer square root:
the loop body `y = z; z = (x / z + z) / 2;` becomes the recursive call with
the new pair `(z, y) := ((x / z + z) / 2, z)`; the loop runs while `z < y`
and returns `y`. -/
def sqrtLoop (x z y : Nat) : Nat :=
  if z < y then sqrtLoop x ((x / z + z) / 2) z else y
termination_by y

/-- Embeds `_sqrt` (part_001, lines 395-404): returns 0 for 0, otherwise runs the
Babylonian iteration from `z = (x + 1) / 2`, `y = x`. -/
def _sqrt (x : Nat) : Nat :=
  if x = 0 then 0 else sqrtLoop x ((x + 1) / 2) x

/-- The byte values of the string `"0123456789abcdef"`, the `hexSymbols`
constant of `_toLowerAddr` (part_001, line 410). -/
def hexSymbols : List Nat :=
  [48, 49, 50, 51, 52, 53, 54, 55, 56, 57, 97, 98, 99, 100, 101, 102]

/-- Embeds `_toLowerAddr` (part_001, lines 406-418): the 40 lowercase-hex
characters (as byte values, most significant byte first, no `0x` prefix)
of a 20-byte address.  `bytes20(a)[i]` is the `i`-th most significant byte,
split into its high and low nibble. -/
def _toLowerAddr (a : Nat) : List Nat :=
  (List.range 20).flatMap (fun i =>
    let b := a / 2 ^ (8 * (19 - i)) % 256
    [hexSymbols.getD (b / 16) 0, hexSymbols.getD (b % 16) 0])

/-- UTF-8 encoding of one character (code point), the byte content Solidity
sees in `bytes(string)`. -/
def utf8EncodeCharNum (n : Nat) : List Nat :=
  if n < 128 then [n]
  else if n < 2048 then [192 + n / 64, 128 + n % 64]
  else if n < 65536 then [224 + n / 4096, 128 + n / 64 % 64, 128 + n % 64]
  else [240 + n / 262144, 128 + n / 4096 % 64, 128 + n / 64 % 64, 128 + n % 64]

/-- The byte content of a Solidity `string`: the UTF-8 encoding of its
characters. -/
def utf8Bytes (s : String) : List Nat :=
  s.data.flatMap (fun c => utf8EncodeCharNum c.toNat)

/-- The expected nullifier of `submitEncryptedBallot` (part_001, line 276):
`keccak256(abi.encodePacked(_toLowerAddr(msg.sender), id_))`.
`abi.encodePacked` of two strings is the concatenation of their bytes.
`keccak256` is an EVM primitive outside this repository and is passed in as
a function of the input bytes. -/
def deriveNullifier (keccak : List Nat → Nat) (sender : Nat) (id : String) : Nat :=
  keccak (_toLowerAddr sender ++ utf8Bytes id)

/-- Contract storage of `FHE_Governance_Voting` (part_001, lines 129-153).
The generic KV store (`_kv`, `setData`, `getData`) and the external ERC20
`weightToken` are not touched by any claim and are omitted. -/
structure State where
  proposals : String → Proposal
  proposalExists : String → Bool
  proposalIds : List String
  ballots : String → Nat → EncryptedBallot
  hasVoted : String → Nat → Bool
  results : String → AggregatedResult
  hasResult : String → Bool
  registeredShares : Nat → Nat
  owner : Nat

/-- Constructor (part_001, lines 176-182): `owner` is the deployer when
`initialOwner` is the zero address. -/
def initState (deployer initialOwner : Nat) : State :=
  { proposals := fun _ => Proposal.zero,
    proposalExists := fun _ => false,
    proposalIds := [],
    ballots := fun _ _ => EncryptedBallot.zero,
    hasVoted := fun _ _ => false,
    results := fun _ => AggregatedResult.zero,
    hasResult := fun _ => false,
    registeredShares := fun _ => 0,
    owner := if initialOwner = 0 then deployer else initialOwner }

/-- Embeds `createProposal` (part_001, lines 208-242).  Guards: fresh id, nonempty
id (`bytes(id_).length > 0`), `deadline > now`, at least one enabled
option. -/
def runCreateProposal (s : State) (sender now : Nat) (id_ title_ description_ : String)
    (deadline_ : Nat) (model_ : WeightModel)
    (enableFor enableAgainst enableAbstain : Bool) : Except String State :=
  if s.proposalExists id_ = true then .error "id exists"
  else if id_ = "" then .error "empty id"
  else if ¬ (now < deadline_) then .error "deadline in past"
  else if ¬ (enableFor = true ∨ enableAgainst = true ∨ enableAbstain = true) then
    .error "no options"
  else
    .ok { s with
      proposals := upd s.proposals id_
        { id := id_, title := title_, description := description_,
          createdAt := now, deadline := deadline_, createdBy := sender,
          model := model_, optFor := enableFor, optAgainst := enableAgainst,
          optAbstain := enableAbstain, status := .Active },
      proposalExists := upd s.proposalExists id_ true,
      proposalIds := s.proposalIds ++ [id_] }

/-- Embeds `cancelProposal` (part_001, lines 244-251). -/
def runCancelProposal (s : State) (sender : Nat) (id_ : String) : Except String State :=
  if s.proposalExists id_ = false then .error "not found"
  else if ¬ (sender = (s.proposals id_).createdBy ∨ sender = s.owner) then .error "no perm"
  else if (s.proposals id_).status ≠ .Active then .error "not active"
  else .ok { s with
    proposals := upd s.proposals id_ { s.proposals id_ with status := .Cancelled } }

/-- Embeds `submitEncryptedBallot` (part_001, lines 263-287).  Guards in source
order: proposal exists, status `Active`, `now < deadline`, sender has not
voted, nonempty ciphertext, nullifier equals the derivation from the
sender's lowercase hex address and the proposal id. -/
def runSubmitEncryptedBallot (keccak : List Nat → Nat) (s : State)
    (sender now : Nat) (id_ : String) (ciphertext_ : List Nat) (nullifier_ : Nat) :
    Except String State :=
  if s.proposalExists id_ = false then .error "proposal not found"
  else if (s.proposals id_).status ≠ .Active then .error "not active"
  else if ¬ (now < (s.proposals id_).deadline) then .error "voting closed"
  else if s.hasVoted id_ sender = true then .error "already voted"
  else if ciphertext_ = [] then .error "empty ciphertext"
  else if nullifier_ ≠ deriveNullifier keccak sender id_ then .error "bad nullifier"
  else
    .ok { s with
      ballots := upd s.ballots id_ (upd (s.ballots id_) sender
        { ciphertext := ciphertext_, nullifier := nullifier_, submittedAt := now }),
      hasVoted := upd s.hasVoted id_ (upd (s.hasVoted id_) sender true) }

/-- Embeds `publishAggregatedResult` (part_001, lines 309-339).  Guards: exists,
caller is creator or owner, status `Active`, `now >= deadline`, no prior
result (`"already finalized"`).  On success stores the result, sets
`_hasResult` and moves the status to `Finalized`. -/
def runPublishAggregatedResult (s : State) (sender now : Nat) (id_ : String)
    (totalFor_ totalAgainst_ totalAbstain_ totalWeight_ : Nat) (proof_ : List Nat) :
    Except String State :=
  if s.proposalExists id_ = false then .error "proposal not found"
  else if ¬ (sender = (s.proposals id_).createdBy ∨ sender = s.owner) then .error "no perm"
  else if (s.proposals id_).status ≠ .Active then .error "not active"
  else if now < (s.proposals id_).deadline then .error "deadline not reached"
  else if s.hasResult id_ = true then .error "already finalized"
  else
    .ok { s with
      results := upd s.results id_
        { totalFor := totalFor_, totalAgainst := totalAgainst_,
          totalAbstain := totalAbstain_, totalWeight := totalWeight_,
          proof := proof_, finalizedAt := now },
      hasResult := upd s.hasResult id_ true,
      proposals := upd s.proposals id_ { s.proposals id_ with status := .Finalized } }

/-- Embeds `setOwner` (part_001, lines 188-191). -/
def runSetOwner (s : State) (sender newOwner : Nat) : Except String State :=
  if sender ≠ s.owner then .error "only owner"
  else if newOwner = 0 then .error "zero"
  else .ok { s with owner := newOwner }

/-- Embeds `setShares` (part_001, lines 199-202). -/
def runSetShares (s : State) (sender who shares : Nat) : Except String State :=
  if sender ≠ s.owner then .error "only owner"
  else .ok { s with registeredShares := upd s.registeredShares who shares }

/-- One external call to `FHE_Governance_Voting`, with sender and block
timestamp. -/
inductive Op where
  | create (sender now : Nat) (id_ title_ description_ : String) (deadline_ : Nat)
      (model_ : WeightModel) (enableFor enableAgainst enableAbstain : Bool)
  | cancel (sender : Nat) (id_ : String)
  | submit (sender now : Nat) (id_ : String) (ciphertext_ : List Nat) (nullifier_ : Nat)
  | publish (sender now : Nat) (id_ : String) (tf ta tb tw : Nat) (proof_ : List Nat)
  | setOwner (sender newOwner : Nat)
  | setShares (sender who shares : Nat)

/-- Run one call.  `keccak256` is the host primitive, passed in. -/
def runOp (keccak : List Nat → Nat) (s : State) : Op → Except String State
  | .create sender now id_ title_ description_ deadline_ model_ f a ab =>
      runCreateProposal s sender now id_ title_ description_ deadline_ model_ f a ab
  | .cancel sender id_ => runCancelProposal s sender id_
  | .submit sender now id_ ciphertext_ nullifier_ =>
      runSubmitEncryptedBallot keccak s sender now id_ ciphertext_ nullifier_
  | .publish sender now id_ tf ta tb tw proof_ =>
      runPublishAggregatedResult s sender now id_ tf ta tb tw proof_
  | .setOwner sender newOwner => runSetOwner s sender newOwner
  | .setShares sender who shares => runSetShares s sender who shares

/-- EVM transaction semantics: a reverted call leaves storage unchanged. -/
def execOp (keccak : List Nat → Nat) (s : State) (op : Op) : State :=
  match runOp keccak s op with
  | .ok s' => s'
  | .error _ => s

/-- A sequence of calls, applied in ledger order. -/
def execTrace (keccak : List Nat → Nat) (s : State) (ops : List Op) : State :=
  ops.foldl (execOp keccak) s

end Gov

namespace DAO

theorem checkActive_none {s : State} {now pid : Nat} (h : checkActive s now pid = none) :
    (s.proposals pid).exists_ = true ∧ (s.proposals pid).startTs ≤ now ∧
      now ≤ (s.proposals pid).endTs := by
  unfold checkActive at h
  split at h
  · exact absurd h (by simp)
  · split at h
    · exact absurd h (by simp)
    · split at h
      · exact absurd h (by simp)
      · next h1 h2 h3 =>
        exact ⟨by simpa using h1, by omega, by omega⟩

theorem createProposal_ok {s s' : State} {sender : Nat} {meta : ProposalMeta}
    (h : runCreateProposal s sender meta = .ok s') :
    sender = s.owner ∧ 1 < meta.optionCount ∧ meta.optionCount ≤ 16 ∧
      meta.startTs < meta.endTs ∧ meta.bufferTs ≤ 259200 ∧
      s' = { s with
        proposalNonce := s.proposalNonce + 1,
        proposals := upd s.proposals (s.proposalNonce + 1) { meta with exists_ := true },
        tallies := upd s.tallies (s.proposalNonce + 1)
          { counts := List.replicate meta.optionCount (TFHE.encrypt64 0),
            initialized := true } } := by
  unfold runCreateProposal at h
  split at h
  · exact absurd h (by simp)
  · split at h
    · exact absurd h (by simp)
    · split at h
      · exact absurd h (by simp)
      · split at h
        · exact absurd h (by simp)
        · next h1 h2 h3 h4 =>
          refine ⟨by omega, ?_, ?_, by omega, by omega, ?_⟩
          · omega
          · omega
          · exact (Except.ok.injEq _ _).mp h |>.symm

theorem submitBallot_ok {s s' : State} {sender now pid n : Nat} {cipher : List Nat}
    (h : runSubmitBallot s sender now pid n cipher = .ok s') :
    (s.proposals pid).exists_ = true ∧ (s.proposals pid).startTs ≤ now ∧
      now ≤ (s.proposals pid).endTs ∧
      (s.usedNullifier pid n = false ∨ (s.proposals pid).enableOverwrite = true) ∧
      s' = { s with
        usedNullifier := upd s.usedNullifier pid (upd (s.usedNullifier pid) n true),
        ballots := upd s.ballots pid (upd (s.ballots pid) sender
          { voter := sender, eligibilityNullifier := n, cipher := cipher,
            timestamp := now, valid := true }) } := by
  unfold runSubmitBallot at h
  split at h
  · exact absurd h (by simp)
  · next hc =>
    obtain ⟨he, h1, h2⟩ := checkActive_none hc
    split at h
    · exact absurd h (by simp)
    · next hcond =>
      refine ⟨he, h1, h2, ?_, (Except.ok.injEq _ _).mp h |>.symm⟩
      cases hu : s.usedNullifier pid n with
      | false => exact Or.inl rfl
      | true =>
        cases ho : (s.proposals pid).enableOverwrite with
        | false => exact absurd ⟨hu, ho⟩ hcond
        | true => exact Or.inr rfl

theorem setDelegation_ok {s s' : State} {sender now pid to_ : Nat}
    (h : runSetDelegation s sender now pid to_ = .ok s') :
    s' = { s with
      delegations := upd s.delegations pid (upd (s.delegations pid) sender
        { to_ := to_, ts := now }) } := by
  unfold runSetDelegation at h
  split at h
  · exact absurd h (by simp)
  · split at h
    · exact absurd h (by simp)
    · exact (Except.ok.injEq _ _).mp h |>.symm

theorem accumulate_ok {s s' : State} {now pid : Nat} {encVector : List Nat}
    (h : runAccumulateEncryptedVector s now pid encVector = .ok s') :
    (s.tallies pid).initialized = true ∧
      encVector.length = (s.tallies pid).counts.length ∧
      s' = { s with
        tallies := upd s.tallies pid
          { counts := encVector, initialized := (s.tallies pid).initialized } } := by
  unfold runAccumulateEncryptedVector at h
  split at h
  · exact absurd h (by simp)
  · split at h
    · exact absurd h (by simp)
    · next hcond =>
      obtain ⟨hinit, hlen⟩ := not_not.mp hcond
      exact ⟨hinit, hlen, (Except.ok.injEq _ _).mp h |>.symm⟩

theorem finalize_ok {s s' : State} {now pid : Nat}
    (h : runFinalize s now pid = .ok s') : s' = s := by
  unfold runFinalize at h
  split at h
  · exact absurd h (by simp)
  · split at h
    · exact absurd h (by simp)
    · exact (Except.ok.injEq _ _).mp h |>.symm

theorem setAllowlistRoot_ok {s s' : State} {sender pid root : Nat}
    (h : runSetAllowlistRoot s sender pid root = .ok s') :
    (s.proposals pid).exists_ = true ∧
      s' = { s with
        proposals := upd s.proposals pid
          { s.proposals pid with eligibilityMerkle := root } } := by
  unfold runSetAllowlistRoot at h
  split at h
  · exact absurd h (by simp)
  · split at h
    · exact absurd h (by simp)
    · next h1 h2 => exact ⟨by simpa using h2, (Except.ok.injEq _ _).mp h |>.symm⟩

theorem setTimelock_ok {s s' : State} {sender tl : Nat}
    (h : runSetTimelock s sender tl = .ok s') : s' = { s with timelock := tl } := by
  unfold runSetTimelock at h
  split at h
  · exact absurd h (by simp)
  · exact (Except.ok.injEq _ _).mp h |>.symm

/-- Reachability invariant of `DAOPrivacyVotingFHE` storage, preserved by
every call and lifted to arbitrary call traces below. -/
structure Inv (s : State) : Prop where
  fresh_not_exists : ∀ pid, s.proposalNonce < pid → (s.proposals pid).exists_ = false
  fresh_no_ballot : ∀ pid v, s.proposalNonce < pid → (s.ballots pid v).valid = false
  fresh_no_nullifier : ∀ pid n, s.proposalNonce < pid → s.usedNullifier pid n = false
  nullifier_covers : ∀ pid v, (s.ballots pid v).valid = true →
    s.usedNullifier pid (s.ballots pid v).eligibilityNullifier = true
  unique_valid : ∀ pid v w, (s.proposals pid).enableOverwrite = false →
    (s.ballots pid v).valid = true → (s.ballots pid w).valid = true →
    (s.ballots pid v).eligibilityNullifier = (s.ballots pid w).eligibilityNullifier →
    v = w
  tally_len : ∀ pid, (s.proposals pid).exists_ = true →
    (s.tallies pid).counts.length = (s.proposals pid).optionCount

theorem Inv_init (deployer : Nat) : Inv (initState deployer) := by
  constructor <;> intro pid <;> simp [initState, EncryptedBallot.zero, ProposalMeta.zero]

theorem Inv_execOp {s : State} (hI : Inv s) (op : Op) : Inv (execOp s op) := by
  unfold execOp
  cases hr : runOp s op with
  | error e => exact hI
  | ok s' =>
    show Inv s'
    cases op with
    | create sender meta =>
      obtain ⟨_, hc1, _, _, _, hs'⟩ := createProposal_ok hr
      subst hs'
      constructor <;> dsimp only
      · intro pid hpid
        rw [upd_ne _ _ _ (by omega)]
        exact hI.fresh_not_exists pid (by omega)
      · intro pid v hpid
        exact hI.fresh_no_ballot pid v (by omega)
      · intro pid n hpid
        exact hI.fresh_no_nullifier pid n (by omega)
      · intro pid v hv
        exact hI.nullifier_covers pid v hv
      · intro pid v w hO hv hw hn
        by_cases hp : pid = s.proposalNonce + 1
        · subst hp
          exact absurd hv (by simp [hI.fresh_no_ballot _ v (Nat.lt_succ_self _)])
        · exact hI.unique_valid pid v w (by rwa [upd_ne _ _ _ hp] at hO) hv hw hn
      · intro pid hex
        by_cases hp : pid = s.proposalNonce + 1
        · subst hp
          simp [List.length_replicate]
        · simp only [upd, if_neg hp] at hex ⊢
          exact hI.tally_len pid hex
    | submit sender now p nn cph =>
      obtain ⟨hex, _, _, hfresh, hs'⟩ := submitBallot_ok hr
      subst hs'
      have hple : p ≤ s.proposalNonce := by
        by_contra hgt
        exact absurd hex (by simp [hI.fresh_not_exists p (by omega)])
      constructor <;> dsimp only
      · intro pid hpid
        exact hI.fresh_not_exists pid hpid
      · intro pid v hpid
        rw [upd_ne _ _ _ (by omega : pid ≠ p)]
        exact hI.fresh_no_ballot pid v hpid
      · intro pid n hpid
        rw [upd_ne _ _ _ (by omega : pid ≠ p)]
        exact hI.fresh_no_nullifier pid n hpid
      · intro pid v hv
        by_cases hp : pid = p
        · subst hp
          simp only [upd_same] at hv ⊢
          by_cases hvs : v = sender
          · subst hvs
            simp only [upd_same] at hv ⊢
          · rw [upd_ne _ _ _ hvs] at hv
            rw [upd_ne _ _ _ hvs]
            rw [upd_apply]
            split
            · rfl
            · exact hI.nullifier_covers pid v hv
        · rw [upd_ne _ _ _ hp] at hv
          rw [upd_ne _ _ _ hp, upd_ne _ _ _ hp]
          exact hI.nullifier_covers pid v hv
      · intro pid v w hO hv hw hn
        by_cases hp : pid = p
        · subst hp
          simp only [upd_same] at hv hw hn
          by_cases hvs : v = sender <;> by_cases hws : w = sender
          · rw [hvs, hws]
          · -- v holds the new ballot, w an old valid one with the same nullifier
            exfalso
            subst hvs
            rw [upd_ne _ _ _ hws] at hw
            rw [upd_same, upd_ne _ _ _ hws] at hn
            have h2 : s.usedNullifier pid nn = true := by
              rw [show nn = (s.ballots pid w).eligibilityNullifier from hn]
              exact hI.nullifier_covers pid w hw
            rcases hfresh with hfalse | htrue
            · rw [h2] at hfalse; exact Bool.noConfusion hfalse
            · rw [htrue] at hO; exact Bool.noConfusion hO
          · exfalso
            subst hws
            rw [upd_ne _ _ _ hvs] at hv
            rw [upd_same, upd_ne _ _ _ hvs] at hn
            have h2 : s.usedNullifier pid nn = true := by
              rw [show nn = (s.ballots pid v).eligibilityNullifier from hn.symm]
              exact hI.nullifier_covers pid v hv
            rcases hfresh with hfalse | htrue
            · rw [h2] at hfalse; exact Bool.noConfusion hfalse
            · rw [htrue] at hO; exact Bool.noConfusion hO
          · rw [upd_ne _ _ _ hvs] at hv
            rw [upd_ne _ _ _ hws] at hw
            rw [upd_ne _ _ _ hvs, upd_ne _ _ _ hws] at hn
            exact hI.unique_valid pid v w hO hv hw hn
        · rw [upd_ne _ _ _ hp] at hv hw hn
          exact hI.unique_valid pid v w hO hv hw hn
      · intro pid hex
        exact hI.tally_len pid hex
    | delegate sender now pid0 to_ =>
      rw [setDelegation_ok hr]
      exact ⟨hI.fresh_not_exists, hI.fresh_no_ballot, hI.fresh_no_nullifier,
        hI.nullifier_covers, hI.unique_valid, hI.tally_len⟩
    | accumulate now pid0 encVector =>
      obtain ⟨hinit, hlen, hs'⟩ := accumulate_ok hr
      subst hs'
      refine ⟨hI.fresh_not_exists, hI.fresh_no_ballot, hI.fresh_no_nullifier,
        hI.nullifier_covers, hI.unique_valid, ?_⟩
      intro pid hex
      have hex' : (s.proposals pid).exists_ = true := hex
      show (upd s.tallies pid0
        { counts := encVector, initialized := (s.tallies pid0).initialized }
        pid).counts.length = (s.proposals pid).optionCount
      by_cases hp : pid = pid0
      · subst hp
        rw [upd_same]
        show encVector.length = (s.proposals pid).optionCount
        rw [hlen]
        exact hI.tally_len pid hex'
      · rw [upd_ne _ _ _ hp]
        exact hI.tally_len pid hex'
    | finalize now pid0 =>
      rw [finalize_ok hr]
      exact hI
    | allowlistRoot sender pid0 root =>
      obtain ⟨hex, hs'⟩ := setAllowlistRoot_ok hr
      subst hs'
      have hple : pid0 ≤ s.proposalNonce := by
        by_contra hgt
        exact absurd hex (by simp [hI.fresh_not_exists pid0 (by omega)])
      constructor <;> dsimp only
      · intro pid hpid
        rw [upd_ne _ _ _ (by omega)]
        exact hI.fresh_not_exists pid hpid
      · exact hI.fresh_no_ballot
      · exact hI.fresh_no_nullifier
      · exact hI.nullifier_covers
      · intro pid v w hO hv hw hn
        by_cases hp : pid = pid0
        · subst hp
          simp only [upd_same] at hO
          exact hI.unique_valid pid v w hO hv hw hn
        · rw [upd_ne _ _ _ hp] at hO
          exact hI.unique_valid pid v w hO hv hw hn
      · intro pid hex'
        by_cases hp : pid = pid0
        · subst hp
          simp only [upd_same] at hex' ⊢
          exact hI.tally_len pid hex'
        · rw [upd_ne _ _ _ hp] at hex' ⊢
          exact hI.tally_len pid hex'
    | timelock sender tl =>
      rw [setTimelock_ok hr]
      exact ⟨hI.fresh_not_exists, hI.fresh_no_ballot, hI.fresh_no_nullifier,
        hI.nullifier_covers, hI.unique_valid, hI.tally_len⟩

theorem Inv_execTrace {s : State} (hI : Inv s) (ops : List Op) : Inv (execTrace s ops) := by
  induction ops generalizing s with
  | nil => exact hI
  | cons op rest ih => exact ih (Inv_execOp hI op)

end DAO

namespace Gov

theorem create_ok {s s' : State} {sender now dl : Nat} {id_ t d : String}
    {m : WeightModel} {f a ab : Bool}
    (h : runCreateProposal s sender now id_ t d dl m f a ab = .ok s') :
    s.proposalExists id_ = false ∧ id_ ≠ "" ∧ now < dl ∧
      (f = true ∨ a = true ∨ ab = true) ∧
      s' = { s with
        proposals := upd s.proposals id_
          { id := id_, title := t, description := d, createdAt := now,
            deadline := dl, createdBy := sender, model := m, optFor := f,
            optAgainst := a, optAbstain := ab, status := .Active },
        proposalExists := upd s.proposalExists id_ true,
        proposalIds := s.proposalIds ++ [id_] } := by
  unfold runCreateProposal at h
  split at h
  · exact absurd h (by simp)
  · next h1 =>
    split at h
    · exact absurd h (by simp)
    · next h2 =>
      split at h
      · exact absurd h (by simp)
      · next h3 =>
        split at h
        · exact absurd h (by simp)
        · next h4 =>
          exact ⟨by simpa using h1, h2, by omega, by tauto,
            (Except.ok.injEq _ _).mp h |>.symm⟩

theorem cancel_ok {s s' : State} {sender : Nat} {id_ : String}
    (h : runCancelProposal s sender id_ = .ok s') :
    s.proposalExists id_ = true ∧
      (sender = (s.proposals id_).createdBy ∨ sender = s.owner) ∧
      (s.proposals id_).status = .Active ∧
      s' = { s with
        proposals := upd s.proposals id_
          { s.proposals id_ with status := .Cancelled } } := by
  unfold runCancelProposal at h
  split at h
  · exact absurd h (by simp)
  · next h1 =>
    split at h
    · exact absurd h (by simp)
    · next h2 =>
      split at h
      · exact absurd h (by simp)
      · next h3 =>
        exact ⟨by simpa using h1, by tauto, by simpa using h3,
          (Except.ok.injEq _ _).mp h |>.symm⟩

theorem submit_ok {keccak : List Nat → Nat} {s s' : State} {sender now nullifier_ : Nat}
    {id_ : String} {ciphertext_ : List Nat}
    (h : runSubmitEncryptedBallot keccak s sender now id_ ciphertext_ nullifier_ = .ok s') :
    s.proposalExists id_ = true ∧ (s.proposals id_).status = .Active ∧
      now < (s.proposals id_).deadline ∧ s.hasVoted id_ sender = false ∧
      ciphertext_ ≠ [] ∧ nullifier_ = deriveNullifier keccak sender id_ ∧
      s' = { s with
        ballots := upd s.ballots id_ (upd (s.ballots id_) sender
          { ciphertext := ciphertext_, nullifier := nullifier_, submittedAt := now }),
        hasVoted := upd s.hasVoted id_ (upd (s.hasVoted id_) sender true) } := by
  unfold runSubmitEncryptedBallot at h
  split at h
  · exact absurd h (by simp)
  · next h1 =>
    split at h
    · exact absurd h (by simp)
    · next h2 =>
      split at h
      · exact absurd h (by simp)
      · next h3 =>
        split at h
        · exact absurd h (by simp)
        · next h4 =>
          split at h
          · exact absurd h (by simp)
          · next h5 =>
            split at h
            · exact absurd h (by simp)
            · next h6 =>
              exact ⟨by simpa using h1, by simpa using h2, by omega,
                by simpa using h4, h5, by simpa using h6,
                (Except.ok.injEq _ _).mp h |>.symm⟩

theorem publish_ok {s s' : State} {sender now tf ta tb tw : Nat} {id_ : String}
    {proof_ : List Nat}
    (h : runPublishAggregatedResult s sender now id_ tf ta tb tw proof_ = .ok s') :
    s.proposalExists id_ = true ∧
      (sender = (s.proposals id_).createdBy ∨ sender = s.owner) ∧
      (s.proposals id_).status = .Active ∧ (s.proposals id_).deadline ≤ now ∧
      s.hasResult id_ = false ∧
      s' = { s with
        results := upd s.results id_
          { totalFor := tf, totalAgainst := ta, totalAbstain := tb,
            totalWeight := tw, proof := proof_, finalizedAt := now },
        hasResult := upd s.hasResult id_ true,
        proposals := upd s.proposals id_
          { s.proposals id_ with status := .Finalized } } := by
  unfold runPublishAggregatedResult at h
  split at h
  · exact absurd h (by simp)
  · next h1 =>
    split at h
    · exact absurd h (by simp)
    · next h2 =>
      split at h
      · exact absurd h (by simp)
      · next h3 =>
        split at h
        · exact absurd h (by simp)
        · next h4 =>
          split at h
          · exact absurd h (by simp)
          · next h5 =>
            exact ⟨by simpa using h1, by tauto, by simpa using h3, by omega,
              by simpa using h5, (Except.ok.injEq _ _).mp h |>.symm⟩

theorem ownerSet_ok {s s' : State} {sender newOwner : Nat}
    (h : runSetOwner s sender newOwner = .ok s') : s' = { s with owner := newOwner } := by
  unfold runSetOwner at h
  split at h
  · exact absurd h (by simp)
  · split at h
    · exact absurd h (by simp)
    · exact (Except.ok.injEq _ _).mp h |>.symm

theorem sharesSet_ok {s s' : State} {sender who shares : Nat}
    (h : runSetShares s sender who shares = .ok s') :
    s' = { s with registeredShares := upd s.registeredShares who shares } := by
  unfold runSetShares at h
  split at h
  · exact absurd h (by simp)
  · exact (Except.ok.injEq _ _).mp h |>.symm

/-- Reachability invariant of `FHE_Governance_Voting` storage: a proposal
has an aggregated result exactly when its status is `Finalized`, and a
`Finalized` status only occurs on registered proposals. -/
structure GInv (s : State) : Prop where
  result_iff : ∀ id_, s.hasResult id_ = true ↔ (s.proposals id_).status = .Finalized
  finalized_exists : ∀ id_, (s.proposals id_).status = .Finalized →
    s.proposalExists id_ = true

theorem GInv_init (deployer initialOwner : Nat) : GInv (initState deployer initialOwner) := by
  constructor <;> intro id_ <;> simp [initState, Proposal.zero]

theorem GInv_execOp {keccak : List Nat → Nat} {s : State} (hI : GInv s) (op : Op) :
    GInv (execOp keccak s op) := by
  unfold execOp
  cases hr : runOp keccak s op with
  | error e => exact hI
  | ok s' =>
    show GInv s'
    cases op with
    | create sender now id_ t d dl m f a ab =>
      obtain ⟨hne, _, _, _, hs'⟩ := create_ok hr
      subst hs'
      have hres : s.hasResult id_ = false := by
        cases hq : s.hasResult id_ with
        | false => rfl
        | true =>
          have hfin := (hI.result_iff id_).mp hq
          rw [hI.finalized_exists id_ hfin] at hne
          exact Bool.noConfusion hne
      constructor <;> dsimp only <;> intro j <;> by_cases hj : j = id_
      · subst hj
        constructor
        · intro hq
          rw [hq] at hres
          exact Bool.noConfusion hres
        · intro hq
          rw [upd_same] at hq
          exact ProposalStatus.noConfusion hq
      · rw [upd_ne _ _ _ hj]
        exact hI.result_iff j
      · subst hj
        intro hq
        rw [upd_same] at hq
        exact ProposalStatus.noConfusion hq
      · rw [upd_ne _ _ _ hj, upd_ne _ _ _ hj]
        exact hI.finalized_exists j
    | cancel sender id_ =>
      obtain ⟨hex, _, hact, hs'⟩ := cancel_ok hr
      subst hs'
      have hres : s.hasResult id_ = false := by
        cases hq : s.hasResult id_ with
        | false => rfl
        | true =>
          have hfin := (hI.result_iff id_).mp hq
          rw [hact] at hfin
          exact ProposalStatus.noConfusion hfin
      constructor <;> dsimp only <;> intro j <;> by_cases hj : j = id_
      · subst hj
        constructor
        · intro hq
          rw [hq] at hres
          exact Bool.noConfusion hres
        · intro hq
          rw [upd_same] at hq
          exact ProposalStatus.noConfusion hq
      · rw [upd_ne _ _ _ hj]
        exact hI.result_iff j
      · subst hj
        intro hq
        rw [upd_same] at hq
        exact ProposalStatus.noConfusion hq
      · rw [upd_ne _ _ _ hj]
        exact hI.finalized_exists j
    | submit sender now id_ ciphertext_ nullifier_ =>
      obtain ⟨_, _, _, _, _, _, hs'⟩ := submit_ok hr
      subst hs'
      exact ⟨hI.result_iff, hI.finalized_exists⟩
    | publish sender now id_ tf ta tb tw proof_ =>
      obtain ⟨hex, _, _, _, _, hs'⟩ := publish_ok hr
      subst hs'
      constructor <;> dsimp only <;> intro j <;> by_cases hj : j = id_
      · subst hj
        rw [upd_same, upd_same]
        simp
      · rw [upd_ne _ _ _ hj, upd_ne _ _ _ hj]
        exact hI.result_iff j
      · subst hj
        intro _
        exact hex
      · rw [upd_ne _ _ _ hj]
        exact hI.finalized_exists j
    | setOwner sender newOwner =>
      rw [ownerSet_ok hr]
      exact ⟨hI.result_iff, hI.finalized_exists⟩
    | setShares sender who shares =>
      rw [sharesSet_ok hr]
      exact ⟨hI.result_iff, hI.finalized_exists⟩

theorem GInv_execTrace {keccak : List Nat → Nat} {s : State} (hI : GInv s) (ops : List Op) :
    GInv (execTrace keccak s ops) := by
  induction ops generalizing s with
  | nil => exact hI
  | cons op rest ih => exact ih (GInv_execOp hI op)

/-- Once a result is recorded, no later call changes the stored result or
clears the flag. -/
theorem result_immutable_execOp {keccak : List Nat → Nat} {s : State} {id_ : String}
    (_hI : GInv s) (hres : s.hasResult id_ = true) (op : Op) :
    (execOp keccak s op).results id_ = s.results id_ ∧
      (execOp keccak s op).hasResult id_ = true := by
  unfold execOp
  cases hr : runOp keccak s op with
  | error e => exact ⟨rfl, hres⟩
  | ok s' =>
    show s'.results id_ = s.results id_ ∧ s'.hasResult id_ = true
    cases op with
    | create sender now j t d dl m f a ab =>
      obtain ⟨_, _, _, _, hs'⟩ := create_ok hr
      subst hs'
      exact ⟨rfl, hres⟩
    | cancel sender j =>
      obtain ⟨_, _, _, hs'⟩ := cancel_ok hr
      subst hs'
      exact ⟨rfl, hres⟩
    | submit sender now j ciphertext_ nullifier_ =>
      obtain ⟨_, _, _, _, _, _, hs'⟩ := submit_ok hr
      subst hs'
      exact ⟨rfl, hres⟩
    | publish sender now j tf ta tb tw proof_ =>
      obtain ⟨_, _, _, _, hnores, hs'⟩ := publish_ok hr
      subst hs'
      have hj : id_ ≠ j := by
        intro hj
        rw [hj] at hres
        rw [hres] at hnores
        exact Bool.noConfusion hnores
      constructor <;> dsimp only
      · rw [upd_ne _ _ _ hj]
      · rw [upd_ne _ _ _ hj]
        exact hres
    | setOwner sender newOwner =>
      rw [ownerSet_ok hr]
      exact ⟨rfl, hres⟩
    | setShares sender who shares =>
      rw [sharesSet_ok hr]
      exact ⟨rfl, hres⟩

theorem result_immutable_execTrace {keccak : List Nat → Nat} {s : State} {id_ : String}
    (hI : GInv s) (hres : s.hasResult id_ = true) (ops : List Op) :
    (execTrace keccak s ops).results id_ = s.results id_ ∧
      (execTrace keccak s ops).hasResult id_ = true := by
  induction ops generalizing s with
  | nil => exact ⟨rfl, hres⟩
  | cons op rest ih =>
    obtain ⟨h1, h2⟩ := result_immutable_execOp hI hres op
    obtain ⟨h3, h4⟩ := ih (GInv_execOp hI op) h2
    exact ⟨h3.trans h1, h4⟩

end Gov

namespace Gov

theorem sqrtLoop_exit_le {x z : Nat} (hz : 0 < z) (h : z ≤ (x / z + z) / 2) :
    z ≤ Nat.sqrt x := by
  have h1 : z * 2 ≤ x / z + z := (Nat.le_div_iff_mul_le (by norm_num)).mp h
  have h2 : z ≤ x / z := by
    generalize hq : x / z = q at h1
    omega
  have h3 : z * z ≤ x := (Nat.le_div_iff_mul_le hz).mp h2
  exact Nat.le_sqrt.mpr h3

theorem sqrtLoop_step_ge {x z : Nat} (hz : 0 < z) : Nat.sqrt x ≤ (x / z + z) / 2 := by
  set s := Nat.sqrt x with hs
  by_cases hcase : 2 * s ≤ z
  · have h1 : s * 2 ≤ x / z + z :=
      le_trans (by omega) (Nat.le_add_left z (x / z))
    exact (Nat.le_div_iff_mul_le (by norm_num)).mpr h1
  · push_neg at hcase
    have hss : s * s ≤ x := Nat.sqrt_le x
    have hamgm : 2 * s * z ≤ s * s + z * z := by
      have hi : (2 * (s : Int) * z) ≤ (s : Int) * s + z * z := by
        nlinarith [sq_nonneg ((s : Int) - z)]
      exact_mod_cast hi
    have hexp : (2 * s - z) * z = 2 * s * z - z * z := by
      rw [Nat.sub_mul]
    have hkey : (2 * s - z) * z ≤ s * s := by
      rw [hexp]
      have := Nat.sub_le_sub_right hamgm (z * z)
      simpa using this
    have hdiv : 2 * s - z ≤ x / z := (Nat.le_div_iff_mul_le hz).mpr (le_trans hkey hss)
    have h5 : 2 * s ≤ x / z + z := by
      have h6 := Nat.add_le_add_right hdiv z
      rwa [Nat.sub_add_cancel (Nat.le_of_lt hcase)] at h6
    exact (Nat.le_div_iff_mul_le (by norm_num)).mpr (by rw [Nat.mul_comm]; exact h5)

theorem sqrtLoop_init_ge {x : Nat} (hx : 1 ≤ x) : Nat.sqrt x ≤ (x + 1) / 2 := by
  set s := Nat.sqrt x with hs
  have h1 : 1 ≤ s := Nat.le_sqrt.mpr (by omega)
  have hss : s * s ≤ x := Nat.sqrt_le x
  have h2 : 2 * s ≤ s * s + 1 := by
    have hi : 2 * (s : Int) ≤ (s : Int) * s + 1 := by nlinarith [sq_nonneg ((s : Int) - 1)]
    exact_mod_cast hi
  have h3 : s * 2 ≤ x + 1 := by
    calc s * 2 = 2 * s := Nat.mul_comm s 2
    _ ≤ s * s + 1 := h2
    _ ≤ x + 1 := Nat.add_le_add_right hss 1
  exact (Nat.le_div_iff_mul_le (by norm_num)).mpr h3

theorem sqrtLoop_eq (x : Nat) (hs : 1 ≤ Nat.sqrt x) :
    ∀ y z, Nat.sqrt x ≤ z → Nat.sqrt x ≤ y → (y ≤ Nat.sqrt x ∨ z < y) →
      sqrtLoop x z y = Nat.sqrt x := by
  intro y
  induction y using Nat.strong_induction_on with
  | _ y ih =>
    intro z hz hy hd
    rw [sqrtLoop]
    split
    · next hlt =>
      refine ih z hlt ((x / z + z) / 2) (sqrtLoop_step_ge (by omega)) hz ?_
      by_cases hnext : (x / z + z) / 2 < z
      · exact Or.inr hnext
      · exact Or.inl (sqrtLoop_exit_le (by omega) (Nat.le_of_not_lt hnext))
    · next hge => omega

/-- The Babylonian `_sqrt` of part_001 computes the usual integer square
root. -/
theorem _sqrt_eq_sqrt (x : Nat) : _sqrt x = Nat.sqrt x := by
  unfold _sqrt
  split
  · next h => subst h; rfl
  · next h =>
    have hx : 1 ≤ x := by omega
    have hs : 1 ≤ Nat.sqrt x := Nat.le_sqrt.mpr (by omega)
    refine sqrtLoop_eq x hs x ((x + 1) / 2) (sqrtLoop_init_ge hx) (Nat.sqrt_le_self x) ?_
    by_cases h1 : x = 1
    · subst h1; exact Or.inl (by norm_num)
    · exact Or.inr (by omega)

theorem length_flatMap_pair {α β : Type} (f g : α → β) (l : List α) :
    (l.flatMap (fun i => [f i, g i])).length = 2 * l.length := by
  induction l with
  | nil => rfl
  | cons a t ih =>
    simp only [List.flatMap_cons, List.length_append, List.length_cons,
      List.length_nil, ih]
    omega

theorem toLowerAddr_length (sender : Nat) : (_toLowerAddr sender).length = 40 := by
  unfold _toLowerAddr
  rw [length_flatMap_pair]
  simp

theorem toLowerAddr_mem {sender b : Nat} (hb : b ∈ _toLowerAddr sender) :
    b ∈ hexSymbols := by
  unfold _toLowerAddr at hb
  simp only [List.mem_flatMap] at hb
  obtain ⟨i, _, hmem⟩ := hb
  have hgetD : ∀ d, d < 16 → hexSymbols.getD d 0 ∈ hexSymbols := by decide
  have hlt : sender / 2 ^ (8 * (19 - i)) % 256 < 256 := Nat.mod_lt _ (by norm_num)
  simp only [List.mem_cons, List.not_mem_nil, or_false] at hmem
  rcases hmem with h | h
  · rw [h]; exact hgetD _ (by omega)
  · rw [h]; exact hgetD _ (Nat.mod_lt _ (by norm_num))

/-- The states of `FHE_Governance_Voting` reachable from deployment by some
sequence of calls, for a given host `keccak256` primitive. -/
def Reachable (keccak : List Nat → Nat) (s : State) : Prop :=
  ∃ deployer initialOwner ops,
    s = execTrace keccak (initState deployer initialOwner) ops

theorem GInv_of_Reachable {keccak : List Nat → Nat} {s : State}
    (h : Reachable keccak s) : GInv s := by
  obtain ⟨deployer, initialOwner, ops, rfl⟩ := h
  exact GInv_execTrace (GInv_init deployer initialOwner) ops

end Gov

namespace DAO

/-- The states of `DAOPrivacyVotingFHE` reachable from deployment by some
sequence of calls. -/
def Reachable (s : State) : Prop :=
  ∃ deployer ops, s = execTrace (initState deployer) ops

theorem Inv_of_Reachable {s : State} (h : Reachable s) : Inv s := by
  obtain ⟨deployer, ops, rfl⟩ := h
  exact Inv_execTrace (Inv_init deployer) ops

/-- A submission on an active proposal whose nullifier was already consumed
reverts with `"overwrite/disabled"` when overwriting is not enabled. -/
theorem submitBallot_overwrite_disabled {s : State} {sender now pid n : Nat}
    {cipher : List Nat}
    (he : (s.proposals pid).exists_ = true) (h1 : (s.proposals pid).startTs ≤ now)
    (h2 : now ≤ (s.proposals pid).endTs) (hu : s.usedNullifier pid n = true)
    (hO : (s.proposals pid).enableOverwrite = false) :
    runSubmitBallot s sender now pid n cipher = .error "overwrite/disabled" := by
  have hca : checkActive s now pid = none := by
    unfold checkActive
    rw [if_neg (by simp [he]), if_neg (by omega), if_neg (by omega)]
  unfold runSubmitBallot
  rw [hca]
  show (if s.usedNullifier pid n = true ∧ (s.proposals pid).enableOverwrite = false
      then (.error "overwrite/disabled" : Except String State) else _) = _
  rw [if_pos ⟨hu, hO⟩]

/-- A submission on an active proposal succeeds whenever the nullifier is
fresh or overwriting is enabled, and stores the new ballot. -/
theorem submitBallot_succeeds {s : State} {sender now pid n : Nat} {cipher : List Nat}
    (he : (s.proposals pid).exists_ = true) (h1 : (s.proposals pid).startTs ≤ now)
    (h2 : now ≤ (s.proposals pid).endTs)
    (hok : s.usedNullifier pid n = false ∨ (s.proposals pid).enableOverwrite = true) :
    runSubmitBallot s sender now pid n cipher = .ok { s with
      usedNullifier := upd s.usedNullifier pid (upd (s.usedNullifier pid) n true),
      ballots := upd s.ballots pid (upd (s.ballots pid) sender
        { voter := sender, eligibilityNullifier := n, cipher := cipher,
          timestamp := now, valid := true }) } := by
  have hca : checkActive s now pid = none := by
    unfold checkActive
    rw [if_neg (by simp [he]), if_neg (by omega), if_neg (by omega)]
  unfold runSubmitBallot
  rw [hca]
  show (if s.usedNullifier pid n = true ∧ (s.proposals pid).enableOverwrite = false
      then (.error "overwrite/disabled" : Except String State) else _) = _
  rw [if_neg ?hneg]
  case hneg =>
    rintro ⟨hu, hO⟩
    rcases hok with hfu | hto
    · rw [hfu] at hu; exact Bool.noConfusion hu
    · rw [hto] at hO; exact Bool.noConfusion hO

/-- Sample proposal configuration used in the concrete scenarios: 2 options,
voting window `[10, 100]`, no buffer, overwriting enabled. -/
def sampleMetaOverwrite : ProposalMeta :=
  { title := "t", description := "d", startTs := 10, endTs := 100, bufferTs := 0,
    voteType := .SingleChoice, disclosure := .AggregateOnly, optionCount := 2,
    snapshotBlock := 0, eligibilityMerkle := 0, enableOverwrite := true,
    enableDelegation := false, exists_ := false }

/-- Same configuration with overwriting disabled. -/
def sampleMetaNoOverwrite : ProposalMeta :=
  { sampleMetaOverwrite with enableOverwrite := false }

end DAO

/-- Modelled from the spec, for comparison with the code: `mergeVector`
"performs element-wise homomorphic addition via the external addition
capability (§6) and replaces the stored vector with the sum".  With the
stub encryption wrapping plain values, homomorphic addition of two
ciphertext handles is addition of the wrapped values, so the merged vector
required by the spec is the element-wise sum. -/
def specMergeCounts (tally vec : List Nat) : List Nat :=
  List.zipWith (fun a b => a + b) tally vec

/-- The concrete run refuting C1's merge behaviour: proposal 1 is created
with 2 options, the vector `[5, 5]` is accumulated, then `[1, 2]` is
accumulated within the voting window. -/
def accumulatedTwice : DAO.State :=
  DAO.execTrace (DAO.initState 0)
    [.create 0 DAO.sampleMetaOverwrite, .accumulate 50 1 [5, 5],
     .accumulate 60 1 [1, 2]]

/-- C1: the claim says `accumulateEncryptedVector` performs element-wise
homomorphic addition of the submitted vector into the stored tally and
replaces the stored vector with the sum, and rejects size mismatches with a
size error leaving the tally unchanged.  The size-mismatch half holds
(`"vector/size"`, state unchanged), but the loop body at line 291 of
`DAOPrivacyVotingFHE.sol` stores `T.counts[i] = encVector[i]` — a plain
replacement — while the function's own documentation ("adds an encrypted
vector into the tally") and its inline comment
(`should be add64(T.counts[i], encVector[i])`) require the sum.  At the
failing input the stored tally is `[1, 2]`, not the spec-required
element-wise sum `[6, 7]`. -/
theorem claim1_accumulate_replaces_not_adds :
    (accumulatedTwice.tallies 1).counts = [1, 2] ∧
    specMergeCounts [5, 5] [1, 2] = [6, 7] ∧
    ([1, 2] : List Nat) ≠ [6, 7] ∧
    DAO.runAccumulateEncryptedVector accumulatedTwice 70 1 [1, 2, 3] =
      .error "vector/size" ∧
    DAO.execOp accumulatedTwice (.accumulate 70 1 [1, 2, 3]) = accumulatedTwice :=
  ⟨by decide, by decide, by decide, rfl, rfl⟩

/-- The concrete run refuting C2: overwriting enabled, two different
senders (addresses 1 and 2) submit ballots with the same nullifier 7 on
proposal 1, both within the voting window. -/
def twoSendersOneNullifier : DAO.State :=
  DAO.execTrace (DAO.initState 0)
    [.create 0 DAO.sampleMetaOverwrite, .submit 1 50 1 7 [1], .submit 2 60 1 7 [2]]

/-- C2 counterexample: after the two submissions, the distinct voters 1 and
2 simultaneously hold ballots with `valid = true` and the same nullifier 7
for proposal 1 — more than one valid `EncryptedBallot` for the
(proposal, nullifier) pair.  The ballot store is keyed by sender, and an
overwrite-enabled submission never invalidates another sender's record. -/
theorem claim2_counterexample :
    (twoSendersOneNullifier.ballots 1 1).valid = true ∧
    (twoSendersOneNullifier.ballots 1 1).eligibilityNullifier = 7 ∧
    (twoSendersOneNullifier.ballots 1 2).valid = true ∧
    (twoSendersOneNullifier.ballots 1 2).eligibilityNullifier = 7 ∧
    (1 : Nat) ≠ 2 := by
  decide

/-- C2 amended: in every reachable state, for every proposal whose
`enableOverwrite` flag is false, at most one ballot with `valid = true`
exists per (proposal, nullifier) pair.  (With `enableOverwrite = true` the
property fails, see the counterexample: distinct senders may reuse a
nullifier and each keeps a valid ballot.) -/
theorem claim2_unique_valid_per_nullifier (s : DAO.State) (hs : DAO.Reachable s)
    (pid n v w : Nat)
    (hO : (s.proposals pid).enableOverwrite = false)
    (hv : (s.ballots pid v).valid = true)
    (hw : (s.ballots pid w).valid = true)
    (hnv : (s.ballots pid v).eligibilityNullifier = n)
    (hnw : (s.ballots pid w).eligibilityNullifier = n) :
    v = w :=
  (DAO.Inv_of_Reachable hs).unique_valid pid v w hO hv hw (hnv.trans hnw.symm)

/-- Witness for C2: a reachable state with overwriting disabled and an
actual valid ballot (voter 1, nullifier 7) satisfying all hypotheses. -/
theorem claim2_witness :
    (((DAO.execTrace (DAO.initState 0)
        [.create 0 DAO.sampleMetaNoOverwrite, .submit 1 50 1 7 [1]]).ballots 1 1).valid
      = true) ∧ (1 : Nat) = 1 :=
  ⟨by decide,
    claim2_unique_valid_per_nullifier
      (DAO.execTrace (DAO.initState 0)
        [.create 0 DAO.sampleMetaNoOverwrite, .submit 1 50 1 7 [1]])
      ⟨0, [.create 0 DAO.sampleMetaNoOverwrite, .submit 1 50 1 7 [1]], rfl⟩
      1 7 1 1 (by decide) (by decide) (by decide) (by decide) (by decide)⟩

/-- Proposal 1 created (window `[10, 100]`, buffer 0) and finalized once at
time 101, past `end + buffer`. -/
def finalizedOnce : DAO.State :=
  DAO.execTrace (DAO.initState 0)
    [.create 0 DAO.sampleMetaOverwrite, .finalize 101 1]

/-- C3 counterexample: in `DAOPrivacyVotingFHE`, `finalize` has no
at-most-once guard and records nothing.  The first `finalize` after the
buffer window succeeds, a second, later `finalize` call on the same
proposal succeeds again instead of failing with an already-finalized
error, and neither call writes any storage (no `AggregatedResult`
exists on this contract at all). -/
theorem claim3_counterexample :
    (DAO.runFinalize (DAO.execTrace (DAO.initState 0)
        [.create 0 DAO.sampleMetaOverwrite]) 101 1).isOk = true ∧
    (DAO.runFinalize finalizedOnce 102 1).isOk = true ∧
    DAO.execOp (DAO.execTrace (DAO.initState 0) [.create 0 DAO.sampleMetaOverwrite])
        (.finalize 101 1) =
      DAO.execTrace (DAO.initState 0) [.create 0 DAO.sampleMetaOverwrite] :=
  ⟨by decide, by decide, rfl⟩

/-- C3 amended: in `FHE_Governance_Voting`, finalization
(`publishAggregatedResult`) completes at most once per proposal: in every
reachable state an `AggregatedResult` exists (`_hasResult`) iff the
proposal's status is `Finalized`; once a result exists, every later
`publishAggregatedResult` call by a permitted caller fails with
`"not active"` (the status is already `Finalized`, so the dedicated
`"already finalized"` guard is unreachable), and no sequence of further
calls ever changes the stored result or clears the flag.  In
`DAOPrivacyVotingFHE`, `finalize` has no such guard and records no result
(see the counterexample). -/
theorem claim3_finalize_once (keccak : List Nat → Nat) (s : Gov.State)
    (hs : Gov.Reachable keccak s) (id_ : String) :
    (s.hasResult id_ = true ↔ (s.proposals id_).status = .Finalized) ∧
    (∀ sender now tf ta tb tw proof_, s.hasResult id_ = true →
      (sender = (s.proposals id_).createdBy ∨ sender = s.owner) →
      Gov.runPublishAggregatedResult s sender now id_ tf ta tb tw proof_ =
        .error "not active") ∧
    (∀ more, s.hasResult id_ = true →
      (Gov.execTrace keccak s more).results id_ = s.results id_ ∧
      (Gov.execTrace keccak s more).hasResult id_ = true) := by
  have hI := Gov.GInv_of_Reachable hs
  refine ⟨hI.result_iff id_, ?_, ?_⟩
  · intro sender now tf ta tb tw proof_ hres hperm
    have hfin := (hI.result_iff id_).mp hres
    have hex := hI.finalized_exists id_ hfin
    unfold Gov.runPublishAggregatedResult
    rw [if_neg (by simp [hex]), if_neg (fun hc => hc hperm),
      if_pos (by rw [hfin]; intro hc; exact Gov.ProposalStatus.noConfusion hc)]
  · intro more hres
    exact Gov.result_immutable_execTrace hI hres more

/-- Witness for C3: proposal `"p"` is created with deadline 10 and
published at time 10; in the resulting state the result flag is set, a
second publish attempt by the creator at time 11 fails with
`"not active"`, and a further cancel attempt leaves the stored result in
place. -/
theorem claim3_witness :
    ((Gov.execTrace (fun _ => 0) (Gov.initState 0 0)
        [.create 0 0 "p" "t" "d" 10 .OneShareOneVote true true true,
         .publish 0 10 "p" 1 2 3 4 []]).hasResult "p" = true ↔
      ((Gov.execTrace (fun _ => 0) (Gov.initState 0 0)
        [.create 0 0 "p" "t" "d" 10 .OneShareOneVote true true true,
         .publish 0 10 "p" 1 2 3 4 []]).proposals "p").status = .Finalized) ∧
    Gov.runPublishAggregatedResult
        (Gov.execTrace (fun _ => 0) (Gov.initState 0 0)
          [.create 0 0 "p" "t" "d" 10 .OneShareOneVote true true true,
           .publish 0 10 "p" 1 2 3 4 []]) 0 11 "p" 5 6 7 8 [] =
      .error "not active" := by
  have h := claim3_finalize_once (fun _ => 0)
    (Gov.execTrace (fun _ => 0) (Gov.initState 0 0)
      [.create 0 0 "p" "t" "d" 10 .OneShareOneVote true true true,
       .publish 0 10 "p" 1 2 3 4 []])
    ⟨0, 0, [.create 0 0 "p" "t" "d" 10 .OneShareOneVote true true true,
            .publish 0 10 "p" 1 2 3 4 []], rfl⟩ "p"
  exact ⟨h.1, h.2.1 0 11 5 6 7 8 [] (by decide) (by decide)⟩

/-- The concrete run for C4's counterexample: overwriting enabled, the same
sender (address 1) submits nullifier 7 with cipher `[1]` at time 50 and
again with cipher `[2]` at time 60. -/
def sameSenderTwice : DAO.State :=
  DAO.execTrace (DAO.initState 0)
    [.create 0 DAO.sampleMetaOverwrite, .submit 1 50 1 7 [1], .submit 1 60 1 7 [2]]

/-- C4 counterexample: the claim says that on an enabled overwrite the
previous record is marked `valid = false` and retained (not erased).  In
the code the slot `ballots[pid][msg.sender]` is overwritten wholesale
(line 246), so after the second submission the store holds the new record
and no ballot record with the first submission's ciphertext `[1]` exists
anywhere — the transient `valid = false` marking of line 243 is itself
overwritten and nothing is retained. -/
theorem claim4_counterexample :
    sameSenderTwice.ballots 1 1 =
      { voter := 1, eligibilityNullifier := 7, cipher := [2], timestamp := 60,
        valid := true } ∧
    ¬ ∃ v : Nat, (sameSenderTwice.ballots 1 v).cipher = [1] := by
  constructor
  · decide
  · rintro ⟨v, hv⟩
    have hb : sameSenderTwice.ballots 1 =
        upd (upd (fun _ => DAO.EncryptedBallot.zero) 1
          { voter := 1, eligibilityNullifier := 7, cipher := [1], timestamp := 50,
            valid := true }) 1
          { voter := 1, eligibilityNullifier := 7, cipher := [2], timestamp := 60,
            valid := true } := rfl
    rw [hb] at hv
    by_cases h1 : v = 1
    · subst h1
      rw [upd_same] at hv
      exact absurd hv (by decide)
    · rw [upd_ne _ _ _ h1, upd_ne _ _ _ h1] at hv
      exact absurd hv (by decide)

/-- C4 amended: for every Active proposal within its voting window,
submitting twice with the same nullifier fails on the second submission
with `"overwrite/disabled"` when `enableOverwrite` is false; when
`enableOverwrite` is true the second submission succeeds, the stored
record for that (proposal, sender) slot is replaced wholesale by the new
ballot (the previous record is not retained — see the counterexample),
the new ballot is the sole record for that sender, and other senders'
records are untouched. -/
theorem claim4_overwrite_semantics :
    (∀ (s s1 : DAO.State) (sender1 sender2 t1 t2 pid n : Nat) (c1 c2 : List Nat),
      DAO.runSubmitBallot s sender1 t1 pid n c1 = .ok s1 →
      (s.proposals pid).enableOverwrite = false →
      (s.proposals pid).startTs ≤ t2 → t2 ≤ (s.proposals pid).endTs →
      DAO.runSubmitBallot s1 sender2 t2 pid n c2 = .error "overwrite/disabled") ∧
    (∀ (s s1 : DAO.State) (sender t1 t2 pid n : Nat) (c1 c2 : List Nat),
      DAO.runSubmitBallot s sender t1 pid n c1 = .ok s1 →
      (s.proposals pid).enableOverwrite = true →
      (s.proposals pid).startTs ≤ t2 → t2 ≤ (s.proposals pid).endTs →
      ∃ s2, DAO.runSubmitBallot s1 sender t2 pid n c2 = .ok s2 ∧
        s2.ballots pid sender =
          { voter := sender, eligibilityNullifier := n, cipher := c2,
            timestamp := t2, valid := true } ∧
        (∀ v, v ≠ sender → s2.ballots pid v = s1.ballots pid v)) := by
  constructor
  · intro s s1 sender1 sender2 t1 t2 pid n c1 c2 h1 hO ht1 ht2
    obtain ⟨he, _, _, _, hs1⟩ := DAO.submitBallot_ok h1
    subst hs1
    exact DAO.submitBallot_overwrite_disabled he ht1 ht2 (by simp [upd]) hO
  · intro s s1 sender t1 t2 pid n c1 c2 h1 hO ht1 ht2
    obtain ⟨he, _, _, _, hs1⟩ := DAO.submitBallot_ok h1
    subst hs1
    refine ⟨_, DAO.submitBallot_succeeds he ht1 ht2 (Or.inr hO), ?_, ?_⟩
    · show (upd _ pid (upd _ sender _) pid sender) = _
      rw [upd_same, upd_same]
    · intro v hv
      show (upd _ pid (upd _ sender _) pid v) = _
      rw [upd_same, upd_ne _ _ _ hv]

/-- Witness for C4: both branches hold on the concrete two-submission
scenarios (overwrite disabled for the failure branch, enabled for the
success branch). -/
theorem claim4_witness :
    DAO.runSubmitBallot
        (DAO.execTrace (DAO.initState 0)
          [.create 0 DAO.sampleMetaNoOverwrite, .submit 1 50 1 7 [1]])
        2 60 1 7 [2] = .error "overwrite/disabled" ∧
    ∃ s2, DAO.runSubmitBallot
        (DAO.execTrace (DAO.initState 0)
          [.create 0 DAO.sampleMetaOverwrite, .submit 1 50 1 7 [1]])
        1 60 1 7 [2] = .ok s2 ∧
      s2.ballots 1 1 =
        { voter := 1, eligibilityNullifier := 7, cipher := [2], timestamp := 60,
          valid := true } ∧
      (∀ v, v ≠ 1 → s2.ballots 1 v =
        (DAO.execTrace (DAO.initState 0)
          [.create 0 DAO.sampleMetaOverwrite, .submit 1 50 1 7 [1]]).ballots 1 v) := by
  constructor
  · exact claim4_overwrite_semantics.1
      (DAO.execTrace (DAO.initState 0) [.create 0 DAO.sampleMetaNoOverwrite])
      _ 1 2 50 60 1 7 [1] [2] rfl (by decide) (by decide) (by decide)
  · exact claim4_overwrite_semantics.2
      (DAO.execTrace (DAO.initState 0) [.create 0 DAO.sampleMetaOverwrite])
      _ 1 50 60 1 7 [1] [2] rfl (by decide) (by decide) (by decide)

/-- C5: in every reachable state — in particular immediately after creation
and after every merge — every existing proposal's encrypted tally vector
has length equal to the proposal's `optionCount`.  Creation allocates
`optionCount` encrypted zeros, and `accumulateEncryptedVector` requires the
incoming vector to match the stored length before overwriting it. -/
theorem claim5_tally_length (s : DAO.State) (hs : DAO.Reachable s) (pid : Nat)
    (hex : (s.proposals pid).exists_ = true) :
    (s.tallies pid).counts.length = (s.proposals pid).optionCount :=
  (DAO.Inv_of_Reachable hs).tally_len pid hex

/-- Witness for C5: after creating proposal 1 with 2 options and merging a
vector, the tally length is the option count. -/
theorem claim5_witness :
    ((DAO.execTrace (DAO.initState 0)
      [.create 0 DAO.sampleMetaOverwrite, .accumulate 50 1 [3, 4]]).proposals 1).exists_
      = true ∧
    ((DAO.execTrace (DAO.initState 0)
      [.create 0 DAO.sampleMetaOverwrite, .accumulate 50 1 [3, 4]]).tallies 1).counts.length =
      ((DAO.execTrace (DAO.initState 0)
        [.create 0 DAO.sampleMetaOverwrite, .accumulate 50 1 [3, 4]]).proposals 1).optionCount :=
  ⟨by decide,
    claim5_tally_length
      (DAO.execTrace (DAO.initState 0)
        [.create 0 DAO.sampleMetaOverwrite, .accumulate 50 1 [3, 4]])
      ⟨0, [.create 0 DAO.sampleMetaOverwrite, .accumulate 50 1 [3, 4]], rfl⟩
      1 (by decide)⟩

/-- C6: calling `finalize` on an existing proposal at any time not strictly
after `endTs + bufferTs` reverts — with `"proposal/not-ended"` when the
voting window has not even closed, with `"buffer/pending"` when the buffer
window is still running (the spec's `TooEarlyError` covers both guards) —
and the reverted call leaves the entire state unchanged. -/
theorem claim6_finalize_too_early (s : DAO.State) (now pid : Nat)
    (hex : (s.proposals pid).exists_ = true)
    (hle : now ≤ (s.proposals pid).endTs + (s.proposals pid).bufferTs) :
    (DAO.runFinalize s now pid = .error "proposal/not-ended" ∨
      DAO.runFinalize s now pid = .error "buffer/pending") ∧
    DAO.execOp s (.finalize now pid) = s := by
  have hrun : DAO.runFinalize s now pid = .error "proposal/not-ended" ∨
      DAO.runFinalize s now pid = .error "buffer/pending" := by
    cases Nat.lt_or_ge (s.proposals pid).endTs now with
    | inl hlt =>
      right
      have hce : DAO.checkEnded s now pid = none := by
        unfold DAO.checkEnded
        rw [if_neg (by simp [hex]), if_neg (by omega)]
      unfold DAO.runFinalize
      rw [hce]
      show (if ¬ ((s.proposals pid).endTs + (s.proposals pid).bufferTs < now)
          then (.error "buffer/pending" : Except String DAO.State) else _) = _
      rw [if_pos (by omega)]
    | inr hge =>
      left
      have hce : DAO.checkEnded s now pid = some "proposal/not-ended" := by
        unfold DAO.checkEnded
        rw [if_neg (by simp [hex]), if_pos (by omega)]
      unfold DAO.runFinalize
      rw [hce]
  refine ⟨hrun, ?_⟩
  unfold DAO.execOp
  show (match DAO.runFinalize s now pid with
    | .ok s' => s'
    | .error _ => s) = s
  rcases hrun with h | h <;> rw [h]

/-- Witness for C6: proposal 1 (window `[10, 100]`, buffer 0) exists and
time 50 is not after `end + buffer`; finalize reverts and the state is
unchanged. -/
theorem claim6_witness :
    ((DAO.execTrace (DAO.initState 0) [.create 0 DAO.sampleMetaOverwrite]).proposals 1).exists_
      = true ∧
    ((DAO.runFinalize (DAO.execTrace (DAO.initState 0) [.create 0 DAO.sampleMetaOverwrite])
        50 1 = .error "proposal/not-ended" ∨
      DAO.runFinalize (DAO.execTrace (DAO.initState 0) [.create 0 DAO.sampleMetaOverwrite])
        50 1 = .error "buffer/pending") ∧
    DAO.execOp (DAO.execTrace (DAO.initState 0) [.create 0 DAO.sampleMetaOverwrite])
        (.finalize 50 1) =
      DAO.execTrace (DAO.initState 0) [.create 0 DAO.sampleMetaOverwrite]) :=
  ⟨by decide,
    claim6_finalize_too_early
      (DAO.execTrace (DAO.initState 0) [.create 0 DAO.sampleMetaOverwrite])
      50 1 (by decide) (by decide)⟩

/-- C7 counterexample: metadata satisfying every validation condition of
the claim (2 options, `end > start`, buffer 0 ≤ 3 days, options enabled in
the ballot sense) does not make creation succeed: a non-owner caller of
`DAOPrivacyVotingFHE.createProposal` is rejected with `"not owner"` (not a
config error), so creation does not succeed "exactly when" the metadata
validates. -/
theorem claim7_counterexample :
    (1 < DAO.sampleMetaOverwrite.optionCount ∧
      DAO.sampleMetaOverwrite.optionCount ≤ 16 ∧
      DAO.sampleMetaOverwrite.startTs < DAO.sampleMetaOverwrite.endTs ∧
      DAO.sampleMetaOverwrite.bufferTs ≤ 259200) ∧
    DAO.runCreateProposal (DAO.initState 0) 1 DAO.sampleMetaOverwrite =
      .error "not owner" :=
  ⟨by decide, rfl⟩

/-- C7 amended: `DAOPrivacyVotingFHE.createProposal` succeeds exactly when
the caller is the owner and `2 ≤ optionCount ≤ 16`, `end > start`,
`buffer ≤ 3 days` (it has no per-option enable flags); on success the
proposal is stored under the fresh id `proposalNonce + 1` — never an
existing id in a reachable state — with `exists = true` (its Active
analogue).  The at-least-one-enabled-option check lives in
`FHE_Governance_Voting.createProposal`, which succeeds exactly when the id
is fresh and nonempty, the deadline lies in the future, and at least one
of the three options is enabled, and stores the proposal with status
`Active`.  Failed creations revert, so no proposal is created. -/
theorem claim7_create_characterization :
    (∀ (s : DAO.State) (sender : Nat) (meta : DAO.ProposalMeta),
      (DAO.runCreateProposal s sender meta).isOk = true ↔
        (sender = s.owner ∧ 1 < meta.optionCount ∧ meta.optionCount ≤ 16 ∧
          meta.startTs < meta.endTs ∧ meta.bufferTs ≤ 259200)) ∧
    (∀ (s s' : DAO.State) (sender : Nat) (meta : DAO.ProposalMeta),
      DAO.Reachable s →
      DAO.runCreateProposal s sender meta = .ok s' →
      (s.proposals (s.proposalNonce + 1)).exists_ = false ∧
      s'.proposals (s.proposalNonce + 1) = { meta with exists_ := true } ∧
      s'.proposalNonce = s.proposalNonce + 1) ∧
    (∀ (gs : Gov.State) (sender now dl : Nat) (id_ t d : String)
        (m : Gov.WeightModel) (f a ab : Bool),
      (Gov.runCreateProposal gs sender now id_ t d dl m f a ab).isOk = true ↔
        (gs.proposalExists id_ = false ∧ id_ ≠ "" ∧ now < dl ∧
          (f = true ∨ a = true ∨ ab = true))) ∧
    (∀ (gs gs' : Gov.State) (sender now dl : Nat) (id_ t d : String)
        (m : Gov.WeightModel) (f a ab : Bool),
      Gov.runCreateProposal gs sender now id_ t d dl m f a ab = .ok gs' →
      (gs'.proposals id_).status = .Active ∧ gs'.proposalExists id_ = true) := by
  refine ⟨?_, ?_, ?_, ?_⟩
  · intro s sender meta
    constructor
    · intro h
      cases hr : DAO.runCreateProposal s sender meta with
      | error e => rw [hr] at h; exact Bool.noConfusion h
      | ok s' =>
        obtain ⟨h1, h2, h3, h4, h5, _⟩ := DAO.createProposal_ok hr
        exact ⟨h1, h2, h3, h4, h5⟩
    · rintro ⟨h1, h2, h3, h4, h5⟩
      unfold DAO.runCreateProposal
      rw [if_neg (not_not_intro h1), if_neg (not_not_intro ⟨h2, h3⟩),
        if_neg (not_not_intro h4), if_neg (not_not_intro h5)]
      rfl
  · intro s s' sender meta hreach hr
    obtain ⟨_, _, _, _, _, hs'⟩ := DAO.createProposal_ok hr
    subst hs'
    refine ⟨(DAO.Inv_of_Reachable hreach).fresh_not_exists _ (Nat.lt_succ_self _),
      ?_, rfl⟩
    show upd s.proposals (s.proposalNonce + 1) _ (s.proposalNonce + 1) = _
    rw [upd_same]
  · intro gs sender now dl id_ t d m f a ab
    constructor
    · intro h
      cases hr : Gov.runCreateProposal gs sender now id_ t d dl m f a ab with
      | error e => rw [hr] at h; exact Bool.noConfusion h
      | ok gs' =>
        obtain ⟨h1, h2, h3, h4, _⟩ := Gov.create_ok hr
        exact ⟨h1, h2, h3, h4⟩
    · rintro ⟨h1, h2, h3, h4⟩
      unfold Gov.runCreateProposal
      rw [if_neg (by simp [h1]), if_neg h2, if_neg (not_not_intro h3),
        if_neg (not_not_intro h4)]
      rfl
  · intro gs gs' sender now dl id_ t d m f a ab hr
    obtain ⟨_, _, _, _, hs'⟩ := Gov.create_ok hr
    subst hs'
    constructor
    · show (upd gs.proposals id_ _ id_).status = _
      rw [upd_same]
    · show upd gs.proposalExists id_ true id_ = true
      rw [upd_same]

/-- Witness for C7: the concrete creations succeed and store what the
characterization says, on both contracts. -/
theorem claim7_witness :
    ((DAO.execTrace (DAO.initState 0) [.create 0 DAO.sampleMetaOverwrite]).proposals 1 =
      { DAO.sampleMetaOverwrite with exists_ := true }) ∧
    (DAO.runCreateProposal (DAO.initState 0) 0 DAO.sampleMetaOverwrite).isOk = true ∧
    ((Gov.execTrace (fun _ => 0) (Gov.initState 0 0)
        [.create 0 5 "p" "t" "d" 10 .OneShareOneVote true false false]).proposals "p").status
      = .Active := by
  have h2 := claim7_create_characterization.2.1 (DAO.initState 0)
    (DAO.execTrace (DAO.initState 0) [.create 0 DAO.sampleMetaOverwrite])
    0 DAO.sampleMetaOverwrite ⟨0, [], rfl⟩ rfl
  have h1 := (claim7_create_characterization.1 (DAO.initState 0) 0
    DAO.sampleMetaOverwrite).mpr (by decide)
  have h4 := claim7_create_characterization.2.2.2 (Gov.initState 0 0)
    (Gov.execTrace (fun _ => 0) (Gov.initState 0 0)
      [.create 0 5 "p" "t" "d" 10 .OneShareOneVote true false false])
    0 5 10 "p" "t" "d" .OneShareOneVote true false false rfl
  exact ⟨h2.2.1, h1, h4.1⟩

/-- C8: in `FHE_Governance_Voting.submitEncryptedBallot` a ballot is
accepted only if the supplied nullifier equals
`keccak256(toLowerAddr(sender) ++ bytes(proposalId))`; when every other
precondition holds and the nullifier differs, the call reverts with
`"bad nullifier"`.  The derivation is the pure function `deriveNullifier`
of the identity and the proposal id alone — `_toLowerAddr` produces the
40 lowercase hexadecimal characters of the address — so it yields the same
value on every evaluation. -/
theorem claim8_nullifier_gate :
    (∀ (keccak : List Nat → Nat) (s : Gov.State) (sender now : Nat) (id_ : String)
        (ciphertext_ : List Nat) (nullifier_ : Nat) (s' : Gov.State),
      Gov.runSubmitEncryptedBallot keccak s sender now id_ ciphertext_ nullifier_ =
        .ok s' →
      nullifier_ = Gov.deriveNullifier keccak sender id_) ∧
    (∀ (keccak : List Nat → Nat) (s : Gov.State) (sender now : Nat) (id_ : String)
        (ciphertext_ : List Nat) (nullifier_ : Nat),
      s.proposalExists id_ = true → (s.proposals id_).status = .Active →
      now < (s.proposals id_).deadline → s.hasVoted id_ sender = false →
      ciphertext_ ≠ [] → nullifier_ ≠ Gov.deriveNullifier keccak sender id_ →
      Gov.runSubmitEncryptedBallot keccak s sender now id_ ciphertext_ nullifier_ =
        .error "bad nullifier") ∧
    (∀ sender : Nat, (Gov._toLowerAddr sender).length = 40 ∧
      ∀ b ∈ Gov._toLowerAddr sender, b ∈ Gov.hexSymbols) ∧
    (∀ (keccak : List Nat → Nat) (sender : Nat) (id_ : String),
      Gov.deriveNullifier keccak sender id_ =
        keccak (Gov._toLowerAddr sender ++ Gov.utf8Bytes id_)) := by
  refine ⟨?_, ?_, ?_, ?_⟩
  · intro keccak s sender now id_ ciphertext_ nullifier_ s' h
    exact (Gov.submit_ok h).2.2.2.2.2.1
  · intro keccak s sender now id_ ciphertext_ nullifier_ h1 h2 h3 h4 h5 h6
    unfold Gov.runSubmitEncryptedBallot
    rw [if_neg (by simp [h1]), if_neg (not_not_intro h2), if_neg (not_not_intro h3),
      if_neg (by simp [h4]), if_neg h5, if_pos h6]
  · intro sender
    exact ⟨Gov.toLowerAddr_length sender, fun b hb => Gov.toLowerAddr_mem hb⟩
  · intro keccak sender id_
    rfl

/-- The state used in C8's witness: proposal `"p1"` created in
`FHE_Governance_Voting`, with `keccak256` stood in by the input length. -/
def govWitnessState : Gov.State :=
  Gov.execTrace (fun l => l.length) (Gov.initState 0 0)
    [.create 0 0 "p1" "t" "d" 10 .OneShareOneVote true true true]

/-- Witness for C8: with the length function as the host hash, the derived
nullifier for address 1 and id `"p1"` is 42; submitting nullifier 0 with
all other preconditions satisfied reverts with `"bad nullifier"`, and a
submission that succeeds carries exactly the derived nullifier. -/
theorem claim8_witness :
    Gov.runSubmitEncryptedBallot (fun l => l.length) govWitnessState 1 5 "p1" [9] 0 =
      .error "bad nullifier" ∧
    (42 : Nat) = Gov.deriveNullifier (fun l => l.length) 1 "p1" := by
  constructor
  · exact claim8_nullifier_gate.2.1 (fun l => l.length) govWitnessState 1 5 "p1" [9] 0
      (by decide) (by decide) (by decide) (by decide) (by decide) (by decide)
  · exact claim8_nullifier_gate.1 (fun l => l.length) govWitnessState 1 5 "p1" [9] 42
      (Gov.execTrace (fun l => l.length) govWitnessState [.submit 1 5 "p1" [9] 42]) rfl

/-- C9: the Babylonian `_sqrt` of part_001 computes exactly the integer
(floor) square root: it agrees with `Nat.sqrt` everywhere, its result `r`
satisfies `r² ≤ x < (r+1)²` (the floor of the real square root), it takes
the claimed values at 0, 1, 8, 9, 10, and it is monotone non-decreasing. -/
theorem claim9_sqrt :
    (∀ x, Gov._sqrt x = Nat.sqrt x) ∧
    (∀ x, Gov._sqrt x * Gov._sqrt x ≤ x ∧ x < (Gov._sqrt x + 1) * (Gov._sqrt x + 1)) ∧
    Gov._sqrt 0 = 0 ∧ Gov._sqrt 1 = 1 ∧ Gov._sqrt 8 = 2 ∧ Gov._sqrt 9 = 3 ∧
    Gov._sqrt 10 = 3 ∧
    (∀ x y, x ≤ y → Gov._sqrt x ≤ Gov._sqrt y) := by
  refine ⟨Gov._sqrt_eq_sqrt, ?_, ?_, ?_, ?_, ?_, ?_, ?_⟩
  · intro x
    rw [Gov._sqrt_eq_sqrt]
    exact ⟨Nat.sqrt_le x, Nat.lt_succ_sqrt x⟩
  · rw [Gov._sqrt_eq_sqrt]
    exact (Nat.eq_sqrt.mpr (by norm_num)).symm
  · rw [Gov._sqrt_eq_sqrt]
    exact (Nat.eq_sqrt.mpr (by norm_num)).symm
  · rw [Gov._sqrt_eq_sqrt]
    exact (Nat.eq_sqrt.mpr (by norm_num)).symm
  · rw [Gov._sqrt_eq_sqrt]
    exact (Nat.eq_sqrt.mpr (by norm_num)).symm
  · rw [Gov._sqrt_eq_sqrt]
    exact (Nat.eq_sqrt.mpr (by norm_num)).symm
  · intro x y h
    rw [Gov._sqrt_eq_sqrt, Gov._sqrt_eq_sqrt]
    exact Nat.sqrt_le_sqrt h

/-- Witness for C9's monotonicity hypothesis at a concrete pair. -/
theorem claim9_witness : Gov._sqrt 3 ≤ Gov._sqrt 7 :=
  claim9_sqrt.2.2.2.2.2.2.2 3 7 (by decide)

/-- One call never resets a consumed nullifier: `usedNullifier` is only
ever written `true` (line 239); no code path of the contract writes
`false`. -/
theorem usedNullifier_mono_execOp {s : DAO.State} {pid n : Nat} (op : DAO.Op)
    (h : s.usedNullifier pid n = true) :
    (DAO.execOp s op).usedNullifier pid n = true := by
  unfold DAO.execOp
  cases hr : DAO.runOp s op with
  | error e => exact h
  | ok s' =>
    show s'.usedNullifier pid n = true
    cases op with
    | create sender meta =>
      obtain ⟨_, _, _, _, _, hs'⟩ := DAO.createProposal_ok hr
      subst hs'
      exact h
    | submit sender now p nn cph =>
      obtain ⟨_, _, _, _, hs'⟩ := DAO.submitBallot_ok hr
      subst hs'
      show (upd s.usedNullifier p (upd (s.usedNullifier p) nn true)) pid n = true
      by_cases hp : pid = p
      · subst hp
        rw [upd_same]
        by_cases hn : n = nn
        · subst hn
          rw [upd_same]
        · rw [upd_ne _ _ _ hn]
          exact h
      · rw [upd_ne _ _ _ hp]
        exact h
    | delegate sender now p to_ =>
      rw [DAO.setDelegation_ok hr]
      exact h
    | accumulate now p encVector =>
      obtain ⟨_, _, hs'⟩ := DAO.accumulate_ok hr
      subst hs'
      exact h
    | finalize now p =>
      rw [DAO.finalize_ok hr]
      exact h
    | allowlistRoot sender p root =>
      obtain ⟨_, hs'⟩ := DAO.setAllowlistRoot_ok hr
      subst hs'
      exact h
    | timelock sender tl =>
      rw [DAO.setTimelock_ok hr]
      exact h

/-- C10: once `usedNullifier[pid][nullifier]` is true, it stays true after
any further sequence of contract calls — nullifier consumption is
permanent, even when the corresponding ballot record is later invalidated
by an overwrite (which only touches `ballots`). -/
theorem claim10_nullifier_permanent (s : DAO.State) (ops : List DAO.Op) (pid n : Nat)
    (h : s.usedNullifier pid n = true) :
    (DAO.execTrace s ops).usedNullifier pid n = true := by
  induction ops generalizing s with
  | nil => exact h
  | cons op rest ih => exact ih _ (usedNullifier_mono_execOp op h)

/-- Witness for C10: after voter 1 consumes nullifier 7 on proposal 1, an
overwriting second submission and a finalize call leave the flag set. -/
theorem claim10_witness :
    ((DAO.execTrace (DAO.initState 0)
        [.create 0 DAO.sampleMetaOverwrite, .submit 1 50 1 7 [1]]).usedNullifier 1 7
      = true) ∧
    (DAO.execTrace
        (DAO.execTrace (DAO.initState 0)
          [.create 0 DAO.sampleMetaOverwrite, .submit 1 50 1 7 [1]])
        [.submit 1 60 1 7 [2], .finalize 101 1]).usedNullifier 1 7 = true :=
  ⟨by decide,
    claim10_nullifier_permanent
      (DAO.execTrace (DAO.initState 0)
        [.create 0 DAO.sampleMetaOverwrite, .submit 1 50 1 7 [1]])
      [.submit 1 60 1 7 [2], .finalize 101 1] 1 7 (by decide)⟩
